import Mathlib

/-!
Verification of the fuzzy name-to-code matching subsystem and its HTTP
endpoint orchestration (repository url_extract).

The matcher module (map_test_code / map_ref_code) is not among the provided
source files; following the specification, those two operations are modelled
from the spec (sections 4.2 and 4.3): normalization, token-overlap similarity
scoring, maximum-score selection with the documented deterministic tie-break
(shortest canonical name, then lexicographic code order), threshold gating,
and the InvalidThreshold configuration error for thresholds outside [0,1].

The endpoint loop (routes/url_api.py, extract_and_map_tests), the threshold
configuration value, and compress_image (utils.py) are embedded from the
source files directly.
-/

/-- CatalogEntry for tests (spec section 3): canonical name and test code. -/
structure TestEntry where
  canonicalName : String
  code : String
deriving DecidableEq

/-- CatalogEntry for referrers (spec section 3): adds the referrer type. -/
structure RefEntry where
  canonicalName : String
  code : String
  refType : String
deriving DecidableEq

/-- Modelled from the spec: word splitter used by normalization (spec 4.2
step 1). Splits a lowercased, punctuation-stripped character list on spaces,
dropping empty fragments, so whitespace is trimmed and collapsed. -/
def wordsAux : List Char → List Char → List String
  | [], acc => if acc.isEmpty then [] else [String.mk acc.reverse]
  | c :: cs, acc =>
    if c = ' ' then
      (if acc.isEmpty then wordsAux cs [] else String.mk acc.reverse :: wordsAux cs [])
    else wordsAux cs (c :: acc)

/-- Modelled from the spec: normalization (spec 4.2 step 1) — case-fold,
replace non-alphanumeric characters by spaces, split into tokens. -/
def tokens (s : String) : List String :=
  wordsAux (s.data.map (fun c =>
    let d := c.toLower
    if d.isAlphanum then d else ' ')) []

/-- Modelled from the spec: similarity score in [0,1] (spec 4.2 step 2),
token-set overlap (Jaccard) between the normalized input and the normalized
canonical name; deterministic by construction. -/
def similarity (q name : String) : ℚ :=
  let ta := (tokens q).dedup
  let tb := (tokens name).dedup
  let inter := ta.filter (fun x => tb.contains x)
  let uni := (ta ++ tb).dedup
  if uni.length = 0 then 0 else mkRat inter.length uni.length

/-- The sequence of character code points of a string; comparing these lists
lexicographically is the lexicographic order on codes of spec 4.2 step 3. -/
def codeKey (s : String) : List Nat := s.data.map Char.toNat

/-- Strict lexicographic order on code-point lists (spec 4.2 step 3
tie-break). -/
def lexLt : List Nat → List Nat → Bool
  | [], [] => false
  | [], _ :: _ => true
  | _ :: _, [] => false
  | a :: as, b :: bs => if a < b then true else if b < a then false else lexLt as bs

/-- Modelled from the spec: of two candidate entries, keep the better one
(spec 4.2 step 3): higher score first, then the documented tie-break —
shorter canonical name, then lexicographically smaller code; on a full tie
the earlier entry is kept. Generic over the catalog entry type via the
name and code projections. -/
def chooseBetter (score : α → ℚ) (nm cd : α → String) (e1 e2 : α) : α :=
  if score e1 < score e2 then e2
  else if score e2 < score e1 then e1
  else if (nm e2).length < (nm e1).length then e2
  else if (nm e1).length < (nm e2).length then e1
  else if lexLt (codeKey (cd e2)) (codeKey (cd e1)) then e2
  else e1

/-- Modelled from the spec: select the maximum-score entry of the catalog
(spec 4.2 step 3), with the deterministic tie-break of chooseBetter;
none on an empty catalog. -/
def selectBest (score : α → ℚ) (nm cd : α → String) : List α → Option α
  | [] => none
  | e :: es => some (es.foldl (chooseBetter score nm cd) e)

/-- Error taxonomy of the matcher (spec section 7): the only error the
matcher itself reports is the configuration-level InvalidThreshold. -/
inductive MatchError where
  | InvalidThreshold : MatchError
deriving DecidableEq

/-- A threshold is valid when it lies in [0,1] (spec section 3, MatchQuery). -/
def validThreshold (t : ℚ) : Prop := 0 ≤ t ∧ t ≤ 1

instance (t : ℚ) : Decidable (validThreshold t) :=
  inferInstanceAs (Decidable (0 ≤ t ∧ t ≤ 1))

/-- Modelled from the spec: the core match operation (spec 4.2): reject an
out-of-range threshold with InvalidThreshold; reject an input that is empty
after normalization before scoring; otherwise select the best entry and gate
on the threshold. Generic over the entry type. -/
def matchName (q : String) (score : α → ℚ) (nm cd : α → String)
    (catalog : List α) (t : ℚ) : Except MatchError (Option α) :=
  if validThreshold t then
    if tokens q = [] then .ok none
    else
      match selectBest score nm cd catalog with
      | none => .ok none
      | some e => if t ≤ score e then .ok (some e) else .ok none
  else .error .InvalidThreshold

/-- Modelled from the spec: map_test_code (missing module testMap_utils),
returning the (matched_test_name, matched_test_code) pair the call sites in
routes/url_api.py destructure: both fields populated from the single matched
entry, or both None. -/
def map_test_code (catalog : List TestEntry) (q : String) (t : ℚ) :
    Except MatchError (Option String × Option String) :=
  (matchName q (fun e => similarity q e.canonicalName)
      TestEntry.canonicalName TestEntry.code catalog t).map
    (fun r => match r with
      | none => (none, none)
      | some e => (some e.canonicalName, some e.code))

/-- Modelled from the spec: map_ref_code (spec 4.3) — the same algorithm on
the referrer catalog, additionally surfacing the referrer type; the triple
(matched_ref_name, matched_ref_code, matched_ref_type) is fully populated
from the single matched entry or fully None. -/
def map_ref_code (catalog : List RefEntry) (q : String) (t : ℚ) :
    Except MatchError (Option String × Option String × Option String) :=
  (matchName q (fun e => similarity q e.canonicalName)
      RefEntry.canonicalName RefEntry.code catalog t).map
    (fun r => match r with
      | none => (none, none, none)
      | some e => (some e.canonicalName, some e.code, some e.refType))

/-- View of a referrer catalog entry as a test catalog entry, forgetting the
type field; used to state that map_ref_code runs the same algorithm. -/
def refToTest (e : RefEntry) : TestEntry := ⟨e.canonicalName, e.code⟩

instance {ε α : Type} [DecidableEq ε] [DecidableEq α] : DecidableEq (Except ε α) := fun x y =>
  match x, y with
  | .ok a, .ok b =>
    if h : a = b then .isTrue (by rw [h]) else .isFalse (fun hh => h (Except.ok.inj hh))
  | .ok _, .error _ => .isFalse (fun hh => Except.noConfusion hh)
  | .error _, .ok _ => .isFalse (fun hh => Except.noConfusion hh)
  | .error a, .error b =>
    if h : a = b then .isTrue (by rw [h]) else .isFalse (fun hh => h (Except.error.inj hh))

/-- One element of the mapped_tests list built by the endpoint loop
(routes/url_api.py, step 5.1). -/
structure MappedTest where
  inputTestName : String
  matchedTestName : Option String
  matchedTestCode : Option String
deriving DecidableEq

/-- The per-test mapping loop of extract_and_map_tests (routes/url_api.py,
step 5.1): one map_test_code call per extracted test name in order, appending
an entry only when the returned pair differs from (None, None). The second
component records the threshold argument of every call actually made; a
raised matcher error aborts the loop after the failing call. -/
def mapTestsAux (catalog : List TestEntry) (t : ℚ) :
    List String → Except MatchError (List MappedTest) × List ℚ
  | [] => (.ok [], [])
  | n :: ns =>
    match map_test_code catalog n t with
    | .error e => (.error e, [t])
    | .ok (mn, mc) =>
      let r := mapTestsAux catalog t ns
      (r.1.map (fun rest =>
        if (mn, mc) ≠ (none, none) then ⟨n, mn, mc⟩ :: rest else rest),
       t :: r.2)

/-- The mapped_tests list of the endpoint loop. -/
def mapTests (catalog : List TestEntry) (t : ℚ) (ns : List String) :
    Except MatchError (List MappedTest) :=
  (mapTestsAux catalog t ns).1

/-- The thresholds passed to the map_test_code calls of the endpoint loop. -/
def mapTestsTrace (catalog : List TestEntry) (t : ℚ) (ns : List String) : List ℚ :=
  (mapTestsAux catalog t ns).2

/-- The combined output record of extract_and_map_tests (steps 5.2 and 6):
the extracted data (test names, referrer name) with the referrer match triple
attached, plus the mapped_tests list. -/
structure CombinedResult where
  prescribedTests : List String
  referrerName : String
  matchedRefName : Option String
  matchedRefCode : Option String
  matchedRefType : Option String
  mappedTests : List MappedTest
deriving DecidableEq

/-- Steps 5.1, 5.2 and 6 of extract_and_map_tests: run the per-test loop,
then the single map_ref_code call on the extracted referrer name, then
compose the combined result. -/
def assembleResult (catT : List TestEntry) (catR : List RefEntry) (t : ℚ)
    (names : List String) (refName : String) : Except MatchError CombinedResult := do
  let mt ← mapTests catT t names
  let (rn, rc, rt) ← map_ref_code catR refName t
  .ok ⟨names, refName, rn, rc, rt, mt⟩

/-- The threshold arguments passed to matcher calls during one request: the
per-test calls of step 5.1, then — when the loop completed without raising —
the one map_ref_code call of step 5.2. Every call site passes the same
module-level threshold loaded from the configuration. -/
def handlerThresholdTrace (catT : List TestEntry) (t : ℚ) (names : List String) : List ℚ :=
  mapTestsTrace catT t names ++
    (match mapTests catT t names with
     | .error _ => []
     | .ok _ => [t])

/-- External outcomes of one request as seen by extract_and_map_tests:
whether the URL is a local 127.0.0.1 path, whether that file exists, and
whether each external collaborator step (image load, validation, compression,
encoding, prompt read plus model call plus JSON parsing) succeeds, together
with the parsed extraction payload. -/
structure RequestEnv where
  isLocalUrl : Bool
  localFileExists : Bool
  loadOk : Bool
  imageValid : Bool
  compressOk : Bool
  encodeOk : Bool
  extractOk : Bool
  prescribedTests : List String
  referrerName : String
deriving DecidableEq

/-- A Python exception escaping a step of the handler body: a fastapi
HTTPException carrying a status code and a detail string, or any other
exception. Both derive from Exception, so both are caught by the catch-all
except clause of the handler. -/
inductive PyError where
  | http : Nat → String → PyError
  | other : String → PyError
deriving DecidableEq

/-- The detail text of an exception, as interpolated into the catch-all
error message. -/
def pyErrorText : PyError → String
  | .http _ d => d
  | .other d => d

/-- The body of the try block of extract_and_map_tests (routes/url_api.py),
step by step with the status codes the inner code assigns: 404 for a missing
local file, 500 from load_image_from_source, 400 from validate_image, 500
from compress_image and encode_image, generic exceptions from the prompt
read, the model call and JSON parsing, 400 when no test names were
extracted, then matching and assembly. -/
def handlerBody (env : RequestEnv) (catT : List TestEntry) (catR : List RefEntry)
    (t : ℚ) : Except PyError CombinedResult :=
  if env.isLocalUrl ∧ ¬ env.localFileExists then
    .error (.http 404 "File not found")
  else if ¬ env.loadOk then .error (.http 500 "Error loading image")
  else if ¬ env.imageValid then .error (.http 400 "Invalid image")
  else if ¬ env.compressOk then .error (.http 500 "Error compressing image")
  else if ¬ env.encodeOk then .error (.http 500 "Error encoding image")
  else if ¬ env.extractOk then .error (.other "model call or JSON parsing failed")
  else if env.prescribedTests = [] then
    .error (.http 400 "No test names found in the extracted data.")
  else
    match assembleResult catT catR t env.prescribedTests env.referrerName with
    | .error _ => .error (.other "matcher call raised")
    | .ok r => .ok r

/-- extract_and_map_tests (routes/url_api.py): the whole body runs inside
try, and the catch-all except Exception clause catches every raised
exception — including fastapi HTTPException, a subclass of Exception — and
re-raises it as HTTPException with status 500. -/
def extract_and_map_tests (env : RequestEnv) (catT : List TestEntry)
    (catR : List RefEntry) (t : ℚ) : Except PyError CombinedResult :=
  match handlerBody env catT catR t with
  | .ok r => .ok r
  | .error e => .error (.http 500 ("Error during processing: " ++ pyErrorText e))

/-- A byte buffer with a position, modelling io.BytesIO: writing overwrites
from the current position and never truncates trailing bytes; tell reports
the position after the write; getvalue returns the whole buffer. -/
structure ByteBuf where
  data : List Nat
  pos : Nat
deriving DecidableEq

/-- buffer.seek(0). -/
def ByteBuf.seekZero (b : ByteBuf) : ByteBuf := ⟨b.data, 0⟩

/-- Write bytes at the current position, overwriting but never truncating. -/
def ByteBuf.write (b : ByteBuf) (bs : List Nat) : ByteBuf :=
  ⟨b.data.take b.pos ++ bs ++ b.data.drop (b.pos + bs.length), b.pos + bs.length⟩

/-- buffer.tell(). -/
def ByteBuf.tell (b : ByteBuf) : Nat := b.pos

/-- The while loop of compress_image (utils.py): seek to 0, re-encode at the
current quality, stop when size_kb = tell() / 1024 is at most
max_size_mb * 1024 or quality is at most 5, else retry at quality - 5.
Returns the final buffer, the final quality and the number of iterations.
The encoder (PIL img.save) is abstracted as a function from quality to the
encoded bytes. -/
def compressLoop (encode : Nat → List Nat) (maxSizeMb : ℚ) (quality : Nat)
    (buf : ByteBuf) : ByteBuf × Nat × Nat :=
  let b := (buf.seekZero).write (encode quality)
  if h : ((b.tell : ℚ) / 1024 ≤ maxSizeMb * 1024 ∨ quality ≤ 5) then
    (b, quality, 1)
  else
    let r := compressLoop encode maxSizeMb (quality - 5) b
    (r.1, r.2.1, r.2.2 + 1)
termination_by quality
decreasing_by
  push_neg at h
  omega

/-- compress_image (utils.py): start at quality 95 with a fresh BytesIO
buffer and run the loop; buffer.getvalue() — the final buffer contents —
is what is written to the output file. -/
def compress_image (encode : Nat → List Nat) (maxSizeMb : ℚ) : ByteBuf × Nat × Nat :=
  compressLoop encode maxSizeMb 95 ⟨[], 0⟩

/-- A concrete encoder whose output shrinks between qualities: 3 bytes at
quality 95, 2 bytes at every lower quality. -/
def encShrink (q : Nat) : List Nat := if q = 95 then [7, 7, 7] else [9, 9]

section SelectionLemmas

lemma lexLt_trans {a b c : List Nat} (h1 : lexLt a b = true) (h2 : lexLt b c = true) :
    lexLt a c = true := by
  induction a generalizing b c with
  | nil =>
    cases b with
    | nil => simp [lexLt] at h1
    | cons y ys =>
      cases c with
      | nil => simp [lexLt] at h2
      | cons z zs => simp [lexLt]
  | cons x xs ih =>
    cases b with
    | nil => simp [lexLt] at h1
    | cons y ys =>
      cases c with
      | nil => simp [lexLt] at h2
      | cons z zs =>
        simp only [lexLt] at h1 h2 ⊢
        split_ifs at h1 h2 ⊢ <;>
          first
          | rfl
          | omega
          | (exact ih h1 h2)

lemma lexLt_antisymm_eq {a b : List Nat} (h1 : lexLt a b = false) (h2 : lexLt b a = false) :
    a = b := by
  induction a generalizing b with
  | nil =>
    cases b with
    | nil => rfl
    | cons y ys => simp [lexLt] at h1
  | cons x xs ih =>
    cases b with
    | nil => simp [lexLt] at h2
    | cons y ys =>
      simp only [lexLt] at h1 h2
      split_ifs at h1 h2 <;>
        first
        | omega
        | simp at h1
        | simp at h2
        | (have hx : x = y := by omega
           rw [hx, ih h1 h2])

/-- The preference relation realised by chooseBetter: e1 is at least as good a
candidate as e2 — strictly higher score, or equal score and the tie-break of
spec 4.2 step 3 does not prefer e2. -/
def pref (score : α → ℚ) (nm cd : α → String) (e1 e2 : α) : Prop :=
  score e2 < score e1 ∨
    (score e1 = score e2 ∧
      ((nm e1).length < (nm e2).length ∨
        ((nm e1).length = (nm e2).length ∧
          (lexLt (codeKey (cd e1)) (codeKey (cd e2)) = true ∨
            codeKey (cd e1) = codeKey (cd e2)))))

lemma pref_refl (score : α → ℚ) (nm cd : α → String) (e : α) : pref score nm cd e e :=
  Or.inr ⟨rfl, Or.inr ⟨rfl, Or.inr rfl⟩⟩

lemma pref_trans {score : α → ℚ} {nm cd : α → String} {e1 e2 e3 : α}
    (h1 : pref score nm cd e1 e2) (h2 : pref score nm cd e2 e3) :
    pref score nm cd e1 e3 := by
  rcases h1 with h1 | ⟨hs1, h1⟩
  · rcases h2 with h2 | ⟨hs2, h2⟩
    · exact Or.inl (lt_trans h2 h1)
    · exact Or.inl (hs2 ▸ h1)
  · rcases h2 with h2 | ⟨hs2, h2⟩
    · exact Or.inl (lt_of_lt_of_eq h2 hs1.symm)
    · refine Or.inr ⟨hs1.trans hs2, ?_⟩
      rcases h1 with h1 | ⟨hl1, h1⟩
      · rcases h2 with h2 | ⟨hl2, _⟩
        · exact Or.inl (lt_trans h1 h2)
        · exact Or.inl (hl2 ▸ h1)
      · rcases h2 with h2 | ⟨hl2, h2⟩
        · exact Or.inl (hl1 ▸ h2)
        · refine Or.inr ⟨hl1.trans hl2, ?_⟩
          rcases h1 with h1 | h1
          · rcases h2 with h2 | h2
            · exact Or.inl (lexLt_trans h1 h2)
            · exact Or.inl (h2 ▸ h1)
          · rcases h2 with h2 | h2
            · exact Or.inl (h1 ▸ h2)
            · exact Or.inr (h1.trans h2)

lemma chooseBetter_cases (score : α → ℚ) (nm cd : α → String) (e1 e2 : α) :
    chooseBetter score nm cd e1 e2 = e1 ∨ chooseBetter score nm cd e1 e2 = e2 := by
  unfold chooseBetter
  split_ifs <;> simp

lemma chooseBetter_pref_left (score : α → ℚ) (nm cd : α → String) (e1 e2 : α) :
    pref score nm cd (chooseBetter score nm cd e1 e2) e1 := by
  unfold chooseBetter
  split_ifs with h1 h2 h3 h4 h5
  · exact Or.inl h1
  · exact pref_refl score nm cd e1
  · exact Or.inr ⟨le_antisymm (not_lt.mp h1) (not_lt.mp h2), Or.inl h3⟩
  · exact pref_refl score nm cd e1
  · refine Or.inr ⟨le_antisymm (not_lt.mp h1) (not_lt.mp h2), Or.inr ⟨by omega, Or.inl h5⟩⟩
  · exact pref_refl score nm cd e1

lemma chooseBetter_pref_right (score : α → ℚ) (nm cd : α → String) (e1 e2 : α) :
    pref score nm cd (chooseBetter score nm cd e1 e2) e2 := by
  unfold chooseBetter
  split_ifs with h1 h2 h3 h4 h5
  · exact pref_refl score nm cd e2
  · exact Or.inl h2
  · exact pref_refl score nm cd e2
  · exact Or.inr ⟨le_antisymm (not_lt.mp h2) (not_lt.mp h1), Or.inl h4⟩
  · exact pref_refl score nm cd e2
  · refine Or.inr ⟨le_antisymm (not_lt.mp h2) (not_lt.mp h1), Or.inr ⟨by omega, ?_⟩⟩
    rcases hk : lexLt (codeKey (cd e1)) (codeKey (cd e2)) with _ | _
    · exact Or.inr (lexLt_antisymm_eq hk (by simpa using h5))
    · exact Or.inl rfl

lemma foldl_chooseBetter_spec (score : α → ℚ) (nm cd : α → String) (l : List α) (a : α) :
    (l.foldl (chooseBetter score nm cd) a = a ∨ l.foldl (chooseBetter score nm cd) a ∈ l) ∧
    pref score nm cd (l.foldl (chooseBetter score nm cd) a) a ∧
    ∀ x ∈ l, pref score nm cd (l.foldl (chooseBetter score nm cd) a) x := by
  induction l generalizing a with
  | nil => exact ⟨Or.inl rfl, pref_refl score nm cd a, by simp⟩
  | cons b bs ih =>
    obtain ⟨hmem, hpa, hall⟩ := ih (chooseBetter score nm cd a b)
    rw [List.foldl_cons]
    refine ⟨?_, ?_, ?_⟩
    · rcases hmem with h | h
      · rcases chooseBetter_cases score nm cd a b with hc | hc
        · exact Or.inl (h.trans hc)
        · exact Or.inr (by rw [h, hc]; exact List.mem_cons_self b bs)
      · exact Or.inr (List.mem_cons_of_mem b h)
    · exact pref_trans hpa (chooseBetter_pref_left score nm cd a b)
    · intro x hx
      rcases List.mem_cons.mp hx with hx | hx
      · subst hx
        exact pref_trans hpa (chooseBetter_pref_right score nm cd a x)
      · exact hall x hx

lemma selectBest_mem {score : α → ℚ} {nm cd : α → String} {l : List α} {e : α}
    (h : selectBest score nm cd l = some e) : e ∈ l := by
  cases l with
  | nil => simp [selectBest] at h
  | cons b bs =>
    simp only [selectBest, Option.some.injEq] at h
    obtain ⟨hmem, -, -⟩ := foldl_chooseBetter_spec score nm cd bs b
    rw [h] at hmem
    rcases hmem with hmem | hmem
    · exact hmem ▸ List.mem_cons_self b bs
    · exact List.mem_cons_of_mem b hmem

lemma selectBest_pref {score : α → ℚ} {nm cd : α → String} {l : List α} {e : α}
    (h : selectBest score nm cd l = some e) : ∀ x ∈ l, pref score nm cd e x := by
  cases l with
  | nil => simp [selectBest] at h
  | cons b bs =>
    simp only [selectBest, Option.some.injEq] at h
    obtain ⟨-, hpa, hall⟩ := foldl_chooseBetter_spec score nm cd bs b
    intro x hx
    rcases List.mem_cons.mp hx with hx | hx
    · subst hx
      exact h ▸ hpa
    · exact h ▸ hall x hx

end SelectionLemmas

section MatcherLemmas

lemma except_map_map {ε α β γ : Type} (f : α → β) (g : β → γ) (x : Except ε α) :
    (x.map f).map g = x.map (fun a => g (f a)) := by
  cases x <;> rfl

lemma matchName_invalid {α : Type} (q : String) (score : α → ℚ) (nm cd : α → String)
    (catalog : List α) (t : ℚ) (h : ¬ validThreshold t) :
    matchName q score nm cd catalog t = .error .InvalidThreshold := by
  unfold matchName
  rw [if_neg h]

lemma matchName_shape {α : Type} (q : String) (score : α → ℚ) (nm cd : α → String)
    (catalog : List α) (t : ℚ) (hv : validThreshold t) :
    matchName q score nm cd catalog t = .ok none ∨
    ∃ e ∈ catalog, matchName q score nm cd catalog t = .ok (some e) ∧ t ≤ score e ∧
      selectBest score nm cd catalog = some e := by
  unfold matchName
  rw [if_pos hv]
  by_cases hq : tokens q = []
  · rw [if_pos hq]
    exact Or.inl rfl
  · rw [if_neg hq]
    rcases hs : selectBest score nm cd catalog with _ | e
    · exact Or.inl rfl
    · by_cases ht : t ≤ score e
      · exact Or.inr ⟨e, selectBest_mem hs, if_pos ht, ht, rfl⟩
      · exact Or.inl (if_neg ht)

lemma matchName_ok {α : Type} (q : String) (score : α → ℚ) (nm cd : α → String)
    (catalog : List α) (t : ℚ) (hv : validThreshold t) :
    ∃ r, matchName q score nm cd catalog t = .ok r := by
  rcases matchName_shape q score nm cd catalog t hv with h | ⟨e, -, h, -, -⟩
  · exact ⟨none, h⟩
  · exact ⟨some e, h⟩

lemma matchName_error_invalid {α : Type} {q : String} {score : α → ℚ} {nm cd : α → String}
    {catalog : List α} {t : ℚ} {e : MatchError}
    (h : matchName q score nm cd catalog t = .error e) :
    e = .InvalidThreshold ∧ ¬ validThreshold t := by
  by_cases hv : validThreshold t
  · obtain ⟨r, hr⟩ := matchName_ok q score nm cd catalog t hv
    rw [hr] at h
    exact absurd h (fun hh => Except.noConfusion hh)
  · rw [matchName_invalid q score nm cd catalog t hv] at h
    cases e
    exact ⟨rfl, hv⟩

lemma chooseBetter_map {β α : Type} (f : β → α) (score : α → ℚ) (nm cd : α → String)
    (a b : β) :
    chooseBetter score nm cd (f a) (f b) =
      f (chooseBetter (fun e => score (f e)) (fun e => nm (f e)) (fun e => cd (f e)) a b) := by
  simp only [chooseBetter]
  split_ifs <;> rfl

lemma foldl_chooseBetter_map {β α : Type} (f : β → α) (score : α → ℚ) (nm cd : α → String)
    (l : List β) (a : β) :
    (l.map f).foldl (chooseBetter score nm cd) (f a) =
      f (l.foldl (chooseBetter (fun e => score (f e)) (fun e => nm (f e)) (fun e => cd (f e))) a) := by
  induction l generalizing a with
  | nil => rfl
  | cons b bs ih =>
    simp only [List.map_cons, List.foldl_cons]
    rw [chooseBetter_map f score nm cd a b, ih]

lemma selectBest_map {β α : Type} (f : β → α) (score : α → ℚ) (nm cd : α → String)
    (l : List β) :
    selectBest score nm cd (l.map f) =
      (selectBest (fun e => score (f e)) (fun e => nm (f e)) (fun e => cd (f e)) l).map f := by
  cases l with
  | nil => rfl
  | cons b bs =>
    simp only [List.map_cons, selectBest]
    rw [foldl_chooseBetter_map f score nm cd bs b]
    rfl

lemma matchName_map {β α : Type} (f : β → α) (q : String) (score : α → ℚ)
    (nm cd : α → String) (l : List β) (t : ℚ) :
    matchName q score nm cd (l.map f) t =
      (matchName q (fun e => score (f e)) (fun e => nm (f e)) (fun e => cd (f e)) l t).map
        (Option.map f) := by
  unfold matchName
  by_cases hv : validThreshold t
  · rw [if_pos hv, if_pos hv]
    by_cases hq : tokens q = []
    · rw [if_pos hq, if_pos hq]
      rfl
    · rw [if_neg hq, if_neg hq, selectBest_map f score nm cd l]
      rcases selectBest (fun e => score (f e)) (fun e => nm (f e)) (fun e => cd (f e)) l with _ | e
      · rfl
      · show (if t ≤ score (f e) then Except.ok (some (f e)) else Except.ok none) =
            Except.map (Option.map f)
              (if t ≤ score (f e) then Except.ok (some e) else Except.ok none)
        by_cases ht : t ≤ score (f e)
        · rw [if_pos ht, if_pos ht]
          rfl
        · rw [if_neg ht, if_neg ht]
          rfl
  · rw [if_neg hv, if_neg hv]
    rfl

end MatcherLemmas

section EndpointLemmas

lemma except_map_error_of_map {ε α β : Type} {f : α → β} {x : Except ε α} {e : ε}
    (h : x.map f = .error e) : x = .error e := by
  cases x with
  | ok a => exact Except.noConfusion h
  | error e2 => exact congrArg Except.error (Except.error.inj h)

lemma map_test_code_ok (catalog : List TestEntry) (q : String) (t : ℚ)
    (hv : validThreshold t) : ∃ p, map_test_code catalog q t = .ok p := by
  obtain ⟨r, hr⟩ := matchName_ok q (fun e => similarity q e.canonicalName)
    TestEntry.canonicalName TestEntry.code catalog t hv
  exact ⟨_, by simp only [map_test_code, hr]; rfl⟩

lemma map_ref_code_ok (catalog : List RefEntry) (q : String) (t : ℚ)
    (hv : validThreshold t) : ∃ p, map_ref_code catalog q t = .ok p := by
  obtain ⟨r, hr⟩ := matchName_ok q (fun e => similarity q e.canonicalName)
    RefEntry.canonicalName RefEntry.code catalog t hv
  exact ⟨_, by simp only [map_ref_code, hr]; rfl⟩

end EndpointLemmas

/-- C1: every MatchResult produced by map_test_code or map_ref_code is
all-or-nothing: under a valid threshold the test pair is either (None, None)
or has both components populated from one catalog entry, and the referrer
triple likewise; consequently any pair the endpoint observes in its presence
test against (None, None) has its first component None exactly when its
second is. -/
theorem match_result_all_or_nothing (catT : List TestEntry) (catR : List RefEntry)
    (q r : String) (t : ℚ) (hv : validThreshold t) :
    (map_test_code catT q t = .ok (none, none) ∨
      ∃ e ∈ catT, map_test_code catT q t = .ok (some e.canonicalName, some e.code)) ∧
    (∀ p, map_test_code catT q t = .ok p → (p.1 = none ↔ p.2 = none)) ∧
    (map_ref_code catR r t = .ok (none, none, none) ∨
      ∃ e ∈ catR, map_ref_code catR r t
        = .ok (some e.canonicalName, some e.code, some e.refType)) := by
  have hT := matchName_shape q (fun e => similarity q e.canonicalName)
    TestEntry.canonicalName TestEntry.code catT t hv
  have hR := matchName_shape r (fun e => similarity r e.canonicalName)
    RefEntry.canonicalName RefEntry.code catR t hv
  have h1 : map_test_code catT q t = .ok (none, none) ∨
      ∃ e ∈ catT, map_test_code catT q t = .ok (some e.canonicalName, some e.code) := by
    rcases hT with h | ⟨e, he, h, -, -⟩
    · exact Or.inl (by simp only [map_test_code, h]; rfl)
    · exact Or.inr ⟨e, he, by simp only [map_test_code, h]; rfl⟩
  refine ⟨h1, ?_, ?_⟩
  · intro p hp
    rcases h1 with h | ⟨e, -, h⟩
    · rw [h] at hp
      obtain rfl := Except.ok.inj hp
      simp
    · rw [h] at hp
      obtain rfl := Except.ok.inj hp
      simp
  · rcases hR with h | ⟨e, he, h, -, -⟩
    · exact Or.inl (by simp only [map_ref_code, h]; rfl)
    · exact Or.inr ⟨e, he, by simp only [map_ref_code, h]; rfl⟩

/-- Witness for C1 at a concrete catalog, input and threshold. -/
theorem match_result_all_or_nothing_witness :
    validThreshold (mkRat 1 2) ∧
    ((map_test_code [⟨"CBC", "C1"⟩] "cbc" (mkRat 1 2) = .ok (none, none) ∨
      ∃ e ∈ [(⟨"CBC", "C1"⟩ : TestEntry)],
        map_test_code [⟨"CBC", "C1"⟩] "cbc" (mkRat 1 2)
          = .ok (some e.canonicalName, some e.code)) ∧
     (∀ p, map_test_code [⟨"CBC", "C1"⟩] "cbc" (mkRat 1 2) = .ok p →
        (p.1 = none ↔ p.2 = none)) ∧
     (map_ref_code [⟨"Dr A", "R1", "doctor"⟩] "dr a" (mkRat 1 2) = .ok (none, none, none) ∨
      ∃ e ∈ [(⟨"Dr A", "R1", "doctor"⟩ : RefEntry)],
        map_ref_code [⟨"Dr A", "R1", "doctor"⟩] "dr a" (mkRat 1 2)
          = .ok (some e.canonicalName, some e.code, some e.refType))) :=
  ⟨by decide, match_result_all_or_nothing [⟨"CBC", "C1"⟩] [⟨"Dr A", "R1", "doctor"⟩]
    "cbc" "dr a" (mkRat 1 2) (by decide)⟩

/-- C3: a threshold outside [0,1] makes both matchers report the
InvalidThreshold configuration error; the result type carries no MatchResult
alongside the error, so no present or absent MatchResult is produced. -/
theorem invalid_threshold_reported (catT : List TestEntry) (catR : List RefEntry)
    (q r : String) (t : ℚ) (h : ¬ validThreshold t) :
    map_test_code catT q t = .error .InvalidThreshold ∧
    map_ref_code catR r t = .error .InvalidThreshold := by
  constructor
  · simp only [map_test_code, matchName_invalid q _ _ _ catT t h]
    rfl
  · simp only [map_ref_code, matchName_invalid r _ _ _ catR t h]
    rfl

/-- Witness for C3 at threshold 1.5, the scenario of the spec. -/
theorem invalid_threshold_reported_witness :
    ¬ validThreshold (mkRat 3 2) ∧
    map_test_code [⟨"CBC", "C1"⟩] "cbc" (mkRat 3 2) = .error .InvalidThreshold ∧
    map_ref_code [] "x" (mkRat 3 2) = .error .InvalidThreshold :=
  ⟨by decide, invalid_threshold_reported [⟨"CBC", "C1"⟩] [] "cbc" "x" (mkRat 3 2) (by decide)⟩

/-- C4: matching is total on input data: for every input string, however
malformed, a valid threshold always yields a normal return (an ok result,
present or fully absent), and the only error either matcher can ever report
is the configuration-level InvalidThreshold, which occurs only for an
invalid threshold — never for bad input data. -/
theorem matcher_never_raises_on_data (catT : List TestEntry) (catR : List RefEntry)
    (q r : String) (t : ℚ) :
    (validThreshold t →
      (∃ p, map_test_code catT q t = .ok p) ∧ ∃ w, map_ref_code catR r t = .ok w) ∧
    (∀ e, map_test_code catT q t = .error e → e = .InvalidThreshold ∧ ¬ validThreshold t) ∧
    (∀ e, map_ref_code catR r t = .error e → e = .InvalidThreshold ∧ ¬ validThreshold t) := by
  refine ⟨fun hv => ⟨map_test_code_ok catT q t hv, map_ref_code_ok catR r t hv⟩, ?_, ?_⟩
  · intro e he
    exact matchName_error_invalid (except_map_error_of_map he)
  · intro e he
    exact matchName_error_invalid (except_map_error_of_map he)

/-- Witness for C4 at a noisy, malformed input string. -/
theorem matcher_never_raises_on_data_witness :
    validThreshold (mkRat 1 2) ∧
    ((∃ p, map_test_code [⟨"CBC", "C1"⟩] "@@## !x7 ((" (mkRat 1 2) = .ok p) ∧
      ∃ w, map_ref_code [⟨"Dr A", "R1", "doctor"⟩] "@@## !x7 ((" (mkRat 1 2) = .ok w) :=
  ⟨by decide,
   (matcher_never_raises_on_data [⟨"CBC", "C1"⟩] [⟨"Dr A", "R1", "doctor"⟩]
     "@@## !x7 ((" "@@## !x7 ((" (mkRat 1 2)).1 (by decide)⟩

/-- C6: threshold monotonicity: if the matcher returns a present result at
threshold t2, then at any smaller valid threshold t1 it returns the identical
present result (same matched name and code). -/
theorem threshold_monotone (catT : List TestEntry) (q : String) (t1 t2 : ℚ)
    (a b : String) (h12 : t1 < t2) (hv1 : validThreshold t1) (hv2 : validThreshold t2)
    (h : map_test_code catT q t2 = .ok (some a, some b)) :
    map_test_code catT q t1 = .ok (some a, some b) := by
  rcases matchName_shape q (fun e => similarity q e.canonicalName)
      TestEntry.canonicalName TestEntry.code catT t2 hv2 with hnone | ⟨e, -, heq, hle, hsel⟩
  · rw [show map_test_code catT q t2 = .ok (none, none) by
      simp only [map_test_code, hnone]; rfl] at h
    exact absurd (Prod.mk.inj (Except.ok.inj h)).1 (fun hh => Option.noConfusion hh)
  · have hab : a = e.canonicalName ∧ b = e.code := by
      rw [show map_test_code catT q t2 = .ok (some e.canonicalName, some e.code) by
        simp only [map_test_code, heq]; rfl] at h
      have hp := Prod.mk.inj (Except.ok.inj h)
      exact ⟨(Option.some.inj hp.1).symm, (Option.some.inj hp.2).symm⟩
    have hq : ¬ tokens q = [] := by
      intro hq
      unfold matchName at heq
      rw [if_pos hv2, if_pos hq] at heq
      exact Option.noConfusion (Except.ok.inj heq)
    have hm1 : matchName q (fun e => similarity q e.canonicalName)
        TestEntry.canonicalName TestEntry.code catT t1 = .ok (some e) := by
      unfold matchName
      rw [if_pos hv1, if_neg hq, hsel]
      exact if_pos (le_trans (le_of_lt h12) hle)
    rw [hab.1, hab.2]
    simp only [map_test_code, hm1]
    rfl

/-- Witness for C6: present at threshold 1 implies the identical present
result at threshold 1/2. -/
theorem threshold_monotone_witness :
    mkRat 1 2 < 1 ∧ validThreshold (mkRat 1 2) ∧ validThreshold 1 ∧
    map_test_code [⟨"Complete Blood Count", "CBC001"⟩] "complete blood count" (mkRat 1 2)
      = .ok (some "Complete Blood Count", some "CBC001") :=
  ⟨by decide, by decide, by decide,
   threshold_monotone [⟨"Complete Blood Count", "CBC001"⟩] "complete blood count"
     (mkRat 1 2) 1 "Complete Blood Count" "CBC001" (by decide) (by decide) (by decide)
     (by decide)⟩

/-- C5: the referrer matcher runs the same algorithm as the test matcher:
viewing each referrer entry as a test entry, the test matcher on the viewed
catalog returns exactly the (name, code) part of map_ref_code; and any ok
triple is fully absent or fully populated from one catalog entry — the type
field is never populated without name and code, nor absent while they are
present. -/
theorem ref_matcher_same_algorithm (catR : List RefEntry) (r : String) (t : ℚ) :
    map_test_code (catR.map refToTest) r t
      = (map_ref_code catR r t).map (fun p => (p.1, p.2.1)) ∧
    ∀ p, map_ref_code catR r t = .ok p →
      ((p.1 = none ∧ p.2.1 = none ∧ p.2.2 = none) ∨
        ∃ e ∈ catR, p = (some e.canonicalName, some e.code, some e.refType)) := by
  constructor
  · have h : matchName r (fun e : TestEntry => similarity r e.canonicalName)
        TestEntry.canonicalName TestEntry.code (catR.map refToTest) t
        = (matchName r (fun e : RefEntry => similarity r e.canonicalName)
            RefEntry.canonicalName RefEntry.code catR t).map (Option.map refToTest) :=
      matchName_map refToTest r _ _ _ catR t
    simp only [map_test_code, map_ref_code, h, except_map_map]
    rcases matchName r (fun e : RefEntry => similarity r e.canonicalName)
        RefEntry.canonicalName RefEntry.code catR t with e | o
    · rfl
    · rcases o with _ | e <;> rfl
  · intro p hp
    by_cases hv : validThreshold t
    · rcases matchName_shape r (fun e => similarity r e.canonicalName)
          RefEntry.canonicalName RefEntry.code catR t hv with h | ⟨e, he, h, -, -⟩
      · rw [show map_ref_code catR r t = .ok (none, none, none) by
          simp only [map_ref_code, h]; rfl] at hp
        obtain rfl := Except.ok.inj hp
        exact Or.inl ⟨rfl, rfl, rfl⟩
      · rw [show map_ref_code catR r t
            = .ok (some e.canonicalName, some e.code, some e.refType) by
          simp only [map_ref_code, h]; rfl] at hp
        obtain rfl := Except.ok.inj hp
        exact Or.inr ⟨e, he, rfl⟩
    · rw [show map_ref_code catR r t = .error .InvalidThreshold by
        simp only [map_ref_code, matchName_invalid r _ _ _ catR t hv]; rfl] at hp
      exact Except.noConfusion hp

/-- Witness for C5 at a concrete referrer catalog and input. -/
theorem ref_matcher_same_algorithm_witness :
    map_test_code ([⟨"Dr A", "R1", "doctor"⟩].map refToTest) "dr a" (mkRat 1 2)
      = (map_ref_code [⟨"Dr A", "R1", "doctor"⟩] "dr a" (mkRat 1 2)).map
          (fun p => (p.1, p.2.1)) ∧
    ((((some "Dr A", some "R1", some "doctor") :
        Option String × Option String × Option String).1 = none ∧
      ((some "Dr A", some "R1", some "doctor") :
        Option String × Option String × Option String).2.1 = none ∧
      ((some "Dr A", some "R1", some "doctor") :
        Option String × Option String × Option String).2.2 = none) ∨
    ∃ e ∈ [(⟨"Dr A", "R1", "doctor"⟩ : RefEntry)],
      ((some "Dr A", some "R1", some "doctor") :
        Option String × Option String × Option String)
        = (some e.canonicalName, some e.code, some e.refType)) :=
  ⟨(ref_matcher_same_algorithm [⟨"Dr A", "R1", "doctor"⟩] "dr a" (mkRat 1 2)).1,
   (ref_matcher_same_algorithm [⟨"Dr A", "R1", "doctor"⟩] "dr a" (mkRat 1 2)).2
     (some "Dr A", some "R1", some "doctor") (by decide)⟩

/-- C7: determinism and tie-break stability: two calls of map_test_code with
identical arguments return the identical result, and the entry underlying a
present result is deterministically characterised: it belongs to the
catalog, carries the maximal similarity score, and among entries tying at
the maximal score it has minimal canonical-name length and then minimal
lexicographic code — so the same entry is selected on every run. -/
theorem match_deterministic_tie_break (catT : List TestEntry) (q : String) (t : ℚ) :
    map_test_code catT q t = map_test_code catT q t ∧
    ∀ e, selectBest (fun x => similarity q x.canonicalName) TestEntry.canonicalName
        TestEntry.code catT = some e →
      e ∈ catT ∧
      (∀ x ∈ catT, similarity q x.canonicalName ≤ similarity q e.canonicalName) ∧
      (∀ x ∈ catT, similarity q x.canonicalName = similarity q e.canonicalName →
        e.canonicalName.length < x.canonicalName.length ∨
        (e.canonicalName.length = x.canonicalName.length ∧
          (lexLt (codeKey e.code) (codeKey x.code) = true ∨
            codeKey e.code = codeKey x.code))) := by
  refine ⟨rfl, fun e hsel => ⟨selectBest_mem hsel, ?_, ?_⟩⟩
  · intro x hx
    have h := selectBest_pref hsel x hx
    unfold pref at h
    rcases h with h | ⟨hs, -⟩
    · exact le_of_lt h
    · exact le_of_eq hs.symm
  · intro x hx hscore
    have h := selectBest_pref hsel x hx
    unfold pref at h
    rcases h with h | ⟨-, h⟩
    · have h2 : similarity q x.canonicalName < similarity q e.canonicalName := h
      rw [hscore] at h2
      exact absurd h2 (lt_irrefl _)
    · exact h

/-- Witness for C7 with two entries tying at the maximal score: the
tie-break selects the lexicographically smaller code X1 even though X2 is
listed first. -/
theorem match_deterministic_tie_break_witness :
    selectBest (fun x => similarity "blood count" x.canonicalName) TestEntry.canonicalName
      TestEntry.code [⟨"Blood Count", "X2"⟩, ⟨"Blood Count", "X1"⟩]
      = some ⟨"Blood Count", "X1"⟩ ∧
    (⟨"Blood Count", "X1"⟩ : TestEntry) ∈
      [(⟨"Blood Count", "X2"⟩ : TestEntry), ⟨"Blood Count", "X1"⟩] :=
  ⟨by decide,
   ((match_deterministic_tie_break [⟨"Blood Count", "X2"⟩, ⟨"Blood Count", "X1"⟩]
       "blood count" 1).2 ⟨"Blood Count", "X1"⟩ (by decide)).1⟩

section LoopLemmas

lemma mapTestsAux_ok (catT : List TestEntry) (t : ℚ) (hv : validThreshold t)
    (ns : List String) :
    mapTestsAux catT t ns =
      (.ok (ns.filterMap (fun n =>
        match map_test_code catT n t with
        | .ok p => if p ≠ (none, none) then some (⟨n, p.1, p.2⟩ : MappedTest) else none
        | .error _ => none)),
       ns.map (fun _ => t)) := by
  induction ns with
  | nil => rfl
  | cons n ns ih =>
    obtain ⟨p, hp⟩ := map_test_code_ok catT n t hv
    obtain ⟨mn, mc⟩ := p
    simp only [mapTestsAux, hp, ih, List.filterMap_cons, List.map_cons]
    by_cases h : (mn, mc) = ((none : Option String), (none : Option String))
    · simp [h]
      rfl
    · simp [h]
      rfl

end LoopLemmas

/-- C2 as stated fails on the code: with the catalog
[(Complete Blood Count, CBC001)], threshold 1/2 and extracted names
[Complete Blood Count, zzz], the loop of extract_and_map_tests returns a
mapped_tests list with a single entry; the extracted name zzz is in the
extracted list, yet no entry of mapped_tests records its NoMatch outcome —
the name is omitted from the output record. -/
theorem mapped_tests_omit_counterexample :
    mapTests [⟨"Complete Blood Count", "CBC001"⟩] (mkRat 1 2)
        ["Complete Blood Count", "zzz"]
      = .ok [⟨"Complete Blood Count", some "Complete Blood Count", some "CBC001"⟩] ∧
    "zzz" ∈ ["Complete Blood Count", "zzz"] ∧
    ([(⟨"Complete Blood Count", some "Complete Blood Count", some "CBC001"⟩ :
        MappedTest)].all
      (fun m => m.inputTestName != "zzz")) = true ∧
    map_test_code [⟨"Complete Blood Count", "CBC001"⟩] "zzz" (mkRat 1 2)
      = .ok (none, none) := by
  refine ⟨by decide, by decide, by decide, by decide⟩

/-- C2 amended: the output record combines the extraction record with the
mapped_tests list and the one referrer MatchResult; mapped_tests contains,
in extraction order, one entry per extracted test name whose MatchResult is
present, while extracted names whose MatchResult is absent are omitted from
mapped_tests (so callers cannot read per-item NoMatch outcomes off the
record). -/
theorem mapped_tests_composition (catT : List TestEntry) (catR : List RefEntry)
    (t : ℚ) (names : List String) (refName : String) (hv : validThreshold t) :
    mapTests catT t names = .ok (names.filterMap (fun n =>
      match map_test_code catT n t with
      | .ok p => if p ≠ (none, none) then some (⟨n, p.1, p.2⟩ : MappedTest) else none
      | .error _ => none)) ∧
    ∀ res, assembleResult catT catR t names refName = .ok res →
      res.prescribedTests = names ∧ res.referrerName = refName ∧
      ∃ rp, map_ref_code catR refName t = .ok rp ∧
        res.matchedRefName = rp.1 ∧ res.matchedRefCode = rp.2.1 ∧
        res.matchedRefType = rp.2.2 ∧
        res.mappedTests = names.filterMap (fun n =>
          match map_test_code catT n t with
          | .ok p => if p ≠ (none, none) then some (⟨n, p.1, p.2⟩ : MappedTest) else none
          | .error _ => none) := by
  have h1 : mapTests catT t names = .ok (names.filterMap (fun n =>
      match map_test_code catT n t with
      | .ok p => if p ≠ (none, none) then some (⟨n, p.1, p.2⟩ : MappedTest) else none
      | .error _ => none)) := by
    simp only [mapTests, mapTestsAux_ok catT t hv names]
  refine ⟨h1, ?_⟩
  intro res hres
  obtain ⟨rp, hrp⟩ := map_ref_code_ok catR refName t hv
  have h2 : assembleResult catT catR t names refName
      = .ok ⟨names, refName, rp.1, rp.2.1, rp.2.2,
          names.filterMap (fun n =>
            match map_test_code catT n t with
            | .ok p => if p ≠ (none, none) then some (⟨n, p.1, p.2⟩ : MappedTest) else none
            | .error _ => none)⟩ := by
    unfold assembleResult
    rw [h1, hrp]
    rfl
  rw [h2] at hres
  obtain rfl := Except.ok.inj hres
  exact ⟨rfl, rfl, rp, hrp, rfl, rfl, rfl, rfl⟩

/-- Witness for the amended C2 at a concrete catalog and name list. -/
theorem mapped_tests_composition_witness :
    validThreshold (mkRat 1 2) ∧
    mapTests [⟨"Complete Blood Count", "CBC001"⟩] (mkRat 1 2)
        ["Complete Blood Count", "zzz"]
      = .ok ((["Complete Blood Count", "zzz"] : List String).filterMap (fun n =>
          match map_test_code [⟨"Complete Blood Count", "CBC001"⟩] n (mkRat 1 2) with
          | .ok p => if p ≠ (none, none) then some (⟨n, p.1, p.2⟩ : MappedTest) else none
          | .error _ => none)) :=
  ⟨by decide,
   (mapped_tests_composition [⟨"Complete Blood Count", "CBC001"⟩] [] (mkRat 1 2)
     ["Complete Blood Count", "zzz"] "r" (by decide)).1⟩

/-- C8: single threshold value: within a request, the threshold argument of
every matcher call the endpoint makes — one map_test_code call per extracted
test name plus the one map_ref_code call — is exactly the value loaded from
the configuration at startup; the trace depends only on that configuration
value, never on per-request input. -/
theorem threshold_single_value (catT : List TestEntry) (t : ℚ) (names : List String)
    (hv : validThreshold t) :
    handlerThresholdTrace catT t names = List.replicate (names.length + 1) t := by
  have h := mapTestsAux_ok catT t hv names
  simp only [handlerThresholdTrace, mapTests, mapTestsTrace, h, List.replicate_succ',
    List.map_const']

/-- Witness for C8 at a concrete request. -/
theorem threshold_single_value_witness :
    validThreshold (mkRat 1 2) ∧
    handlerThresholdTrace [⟨"Complete Blood Count", "CBC001"⟩] (mkRat 1 2)
        ["Complete Blood Count", "zzz"]
      = List.replicate ((["Complete Blood Count", "zzz"] : List String).length + 1)
          (mkRat 1 2) :=
  ⟨by decide,
   threshold_single_value [⟨"Complete Blood Count", "CBC001"⟩] (mkRat 1 2)
     ["Complete Blood Count", "zzz"] (by decide)⟩

/-- C9: every failure raised inside the handler body reaches the client as
HTTP 500: the catch-all clause rewraps any exception — HTTPException is a
subclass of Exception — as status 500; in particular the inner 404 for a
missing local file and the inner 400 for an empty extracted test list do
occur in the body and are rewrapped, so a client never observes those
status codes. -/
theorem handler_errors_are_500 (env : RequestEnv) (catT : List TestEntry)
    (catR : List RefEntry) (t : ℚ) :
    ((∃ r, extract_and_map_tests env catT catR t = .ok r) ∨
      ∃ d, extract_and_map_tests env catT catR t = .error (.http 500 d)) ∧
    (handlerBody ⟨true, false, true, true, true, true, true, ["x"], "y"⟩ [] [] 1
        = .error (.http 404 "File not found") ∧
      extract_and_map_tests ⟨true, false, true, true, true, true, true, ["x"], "y"⟩ [] [] 1
        = .error (.http 500 "Error during processing: File not found")) ∧
    (handlerBody ⟨false, true, true, true, true, true, true, [], "y"⟩ [] [] 1
        = .error (.http 400 "No test names found in the extracted data.") ∧
      extract_and_map_tests ⟨false, true, true, true, true, true, true, [], "y"⟩ [] [] 1
        = .error
            (.http 500 "Error during processing: No test names found in the extracted data.")) := by
  refine ⟨?_, ⟨by decide, by decide⟩, ⟨by decide, by decide⟩⟩
  cases hb : handlerBody env catT catR t with
  | error e =>
    refine Or.inr ⟨"Error during processing: " ++ pyErrorText e, ?_⟩
    unfold extract_and_map_tests
    rw [hb]
  | ok r =>
    refine Or.inl ⟨r, ?_⟩
    unfold extract_and_map_tests
    rw [hb]

/-- C10 as stated fails on the code in its final clause: with the encoder
encShrink (3 bytes at quality 95, then 2 bytes) and a cap of 2/1048576 MB
(2 bytes), the loop stops at quality 90 because tell() = 2 is within the
cap, but the BytesIO buffer is never truncated, so the output file receives
the 3 bytes [9, 9, 7] — including a stale trailing byte of the larger
quality-95 encoding — which exceed the cap even though the final quality 90
is well above 5. Termination and the iteration bound do hold here. -/
theorem compress_write_exceeds_cap :
    compress_image encShrink ((2 : ℚ) / 1048576) = (⟨[9, 9, 7], 2⟩, 90, 2) ∧
    ¬ (((⟨[9, 9, 7], 2⟩ : ByteBuf).data.length : ℚ) ≤ (2 : ℚ) / 1048576 * 1048576) ∧
    ¬ ((90 : ℕ) ≤ 5) ∧ (2 : ℕ) ≤ 19 := by
  have hw1 : (⟨[], 0⟩ : ByteBuf).seekZero.write (encShrink 95) = ⟨[7, 7, 7], 3⟩ := rfl
  have hw2 : (⟨[7, 7, 7], 3⟩ : ByteBuf).seekZero.write (encShrink 90) = ⟨[9, 9, 7], 2⟩ := rfl
  have hc1 : ¬ ((((⟨[7, 7, 7], 3⟩ : ByteBuf).tell : ℚ) / 1024 ≤ (2 : ℚ) / 1048576 * 1024 ∨
      (95 : ℕ) ≤ 5)) := by
    norm_num [ByteBuf.tell]
  have hc2 : (((⟨[9, 9, 7], 2⟩ : ByteBuf).tell : ℚ) / 1024 ≤ (2 : ℚ) / 1048576 * 1024 ∨
      (90 : ℕ) ≤ 5) := by
    norm_num [ByteBuf.tell]
  refine ⟨?_, by norm_num [ByteBuf.data], by norm_num, by norm_num⟩
  unfold compress_image
  rw [compressLoop, hw1, dif_neg hc1, compressLoop, hw2, dif_pos hc2]

section CompressLemmas

lemma compressLoop_spec (encode : Nat → List Nat) (m : ℚ) :
    ∀ q buf, 1 ≤ q →
      (compressLoop encode m q buf).2.2 * 5 ≤ q + 4 ∧
      ((((compressLoop encode m q buf).1.tell : ℚ) / 1024 ≤ m * 1024) ∨
        (compressLoop encode m q buf).2.1 ≤ 5) := by
  intro q
  induction q using Nat.strong_induction_on with
  | _ q ih =>
    intro buf hq
    rw [compressLoop]
    by_cases hc : ((((buf.seekZero).write (encode q)).tell : ℚ) / 1024 ≤ m * 1024 ∨ q ≤ 5)
    · rw [dif_pos hc]
      refine ⟨?_, hc⟩
      show 1 * 5 ≤ q + 4
      omega
    · rw [dif_neg hc]
      push_neg at hc
      obtain ⟨h1, h2⟩ := hc
      constructor
      · have h3 := (ih (q - 5) (by omega) ((buf.seekZero).write (encode q)) (by omega)).1
        show ((compressLoop encode m (q - 5) ((buf.seekZero).write (encode q))).2.2 + 1) * 5
            ≤ q + 4
        omega
      · exact (ih (q - 5) (by omega) ((buf.seekZero).write (encode q)) (by omega)).2

end CompressLemmas

/-- C10 amended: compress_image terminates for every encoder and size cap:
quality starts at 95 and decreases by 5 per pass, exiting as soon as
tell() / 1024 KB is at most max_size_mb * 1024 or quality is at most 5, so
the loop runs at most 19 iterations; on return, the buffer position — the
length of the final encoding — fits within max_size_mb megabytes, or the
final quality is at most 5. (The full buffer contents written to the output
file may retain a stale tail of an earlier, larger encoding and so may
exceed the cap; see the counterexample.) -/
theorem compress_image_terminates (encode : Nat → List Nat) (maxSizeMb : ℚ) :
    (compress_image encode maxSizeMb).2.2 ≤ 19 ∧
    ((((compress_image encode maxSizeMb).1.tell : ℚ) / 1024 ≤ maxSizeMb * 1024) ∨
      (compress_image encode maxSizeMb).2.1 ≤ 5) := by
  obtain ⟨h1, h2⟩ := compressLoop_spec encode maxSizeMb 95 ⟨[], 0⟩ (by omega)
  refine ⟨?_, h2⟩
  have h3 : (compress_image encode maxSizeMb).2.2 * 5 ≤ 99 := h1
  omega

example : similarity "complete blood count" "Complete Blood Count" = 1 := by decide
example : similarity "zzz" "Complete Blood Count" = 0 := by decide
example : map_test_code [⟨"Complete Blood Count", "CBC001"⟩] "complete  blood count" (mkRat 1 2)
    = .ok (some "Complete Blood Count", some "CBC001") := by decide
example : map_test_code [⟨"Complete Blood Count", "CBC001"⟩] "zzz" (mkRat 1 2)
    = .ok (none, none) := by decide
example : map_test_code [] "x" (mkRat 3 2) = .error .InvalidThreshold := by decide
example : selectBest (fun e => similarity "blood count" e.canonicalName)
    TestEntry.canonicalName TestEntry.code
    [⟨"Blood Count", "X2"⟩, ⟨"Blood Count", "X1"⟩]
    = some ⟨"Blood Count", "X1"⟩ := by decide
